import Mathlib

/-!
Verification of the undo/redo history reducer from
`src/react-course/vite-starter/src/components/UndoRedoDemo.jsx`.

The reducer is a pure function `(state, action) -> state` over a state
`{ past, present, future }`; we embed it shallowly: `past` and `future`
become `List T`, the JS action object `{ type, value }` becomes a
structure with a `String` type tag and a value of `T` (the reducer only
reads `action.value` in the `"set"` and `"reset"` branches, so actions
dispatched without a value are represented by an arbitrary ignored value).
-/

/-- The history state `{ past, present, future }` of `UndoRedoDemo.jsx`. -/
structure HistoryState (T : Type) where
  past : List T
  present : T
  future : List T
  deriving Repr, DecidableEq

/-- A dispatched action object `{ type: string, value }`. -/
structure JSAction (T : Type) where
  type : String
  value : T
  deriving Repr, DecidableEq

/-- The reducer `historyReducer` from `UndoRedoDemo.jsx`.  The JS guard
`past.length === 0` together with the access `past[past.length - 1]` /
`past.slice(0, -1)` is rendered as a match on `List.getLast?`;
`future.length === 0` with `future[0]` / `future.slice(1)` as a match on
the head of `future`. -/
def historyReducer {T : Type} (state : HistoryState T) (action : JSAction T) :
    HistoryState T :=
  if action.type = "set" then
    { past := state.past ++ [state.present], present := action.value, future := [] }
  else if action.type = "undo" then
    match state.past.getLast? with
    | none => state
    | some previous =>
        { past := state.past.dropLast
          present := previous
          future := state.present :: state.future }
  else if action.type = "redo" then
    match state.future with
    | [] => state
    | next :: rest =>
        { past := state.past ++ [state.present], present := next, future := rest }
  else if action.type = "reset" then
    { past := [], present := action.value, future := [] }
  else
    state

/-- Dispatching `{ type: "set", value: v }`. -/
def hset {T : Type} (s : HistoryState T) (v : T) : HistoryState T :=
  historyReducer s { type := "set", value := v }

/-- Dispatching `{ type: "undo" }`; the value field is never read in the
`"undo"` branch, so we pass the current present as a placeholder. -/
def hundo {T : Type} (s : HistoryState T) : HistoryState T :=
  historyReducer s { type := "undo", value := s.present }

/-- Dispatching `{ type: "redo" }`; the value field is never read in the
`"redo"` branch, so we pass the current present as a placeholder. -/
def hredo {T : Type} (s : HistoryState T) : HistoryState T :=
  historyReducer s { type := "redo", value := s.present }

/-- Dispatching `{ type: "reset", value: v }`. -/
def hreset {T : Type} (s : HistoryState T) (v : T) : HistoryState T :=
  historyReducer s { type := "reset", value := v }

/-- The Undo button of `UndoRedoDemo` is rendered with
`disabled={state.past.length === 0}`. -/
def undoDisabled {T : Type} (s : HistoryState T) : Bool :=
  s.past.length == 0

/-- The Redo button of `UndoRedoDemo` is rendered with
`disabled={state.future.length === 0}`. -/
def redoDisabled {T : Type} (s : HistoryState T) : Bool :=
  s.future.length == 0

/-- The query `canUndo` in the spec's vocabulary: the Undo button is enabled. -/
def canUndo {T : Type} (s : HistoryState T) : Bool :=
  !undoDisabled s

/-- The query `canRedo` in the spec's vocabulary: the Redo button is enabled. -/
def canRedo {T : Type} (s : HistoryState T) : Bool :=
  !redoDisabled s

section Lemmas

variable {T : Type}

lemma hset_def (s : HistoryState T) (v : T) :
    hset s v = { past := s.past ++ [s.present], present := v, future := [] } := by
  rfl

lemma hundo_of_past_eq_nil (s : HistoryState T) (h : s.past = []) :
    hundo s = s := by
  simp [hundo, historyReducer, h]

lemma hundo_of_past_ne_nil (s : HistoryState T) (h : s.past ≠ []) :
    hundo s =
      { past := s.past.dropLast
        present := s.past.getLast h
        future := s.present :: s.future } := by
  have hl : s.past.getLast? = some (s.past.getLast h) := List.getLast?_eq_getLast _ h
  simp [hundo, historyReducer, hl]

lemma hredo_of_future_eq_nil (s : HistoryState T) (h : s.future = []) :
    hredo s = s := by
  simp [hredo, historyReducer, h]

lemma hredo_of_future_cons (s : HistoryState T) (next : T) (rest : List T)
    (h : s.future = next :: rest) :
    hredo s =
      { past := s.past ++ [s.present], present := next, future := rest } := by
  simp [hredo, historyReducer, h]

lemma hreset_def (s : HistoryState T) (v : T) :
    hreset s v = { past := [], present := v, future := [] } := by
  rfl

end Lemmas

/-- Claim C1: `set(newValue)` returns a state whose `past` is the old `past`
with the old `present` appended at the end, whose `present` is `newValue`,
and whose `future` is empty; `past` grows by exactly one element, even when
`newValue` equals the current `present`. -/
theorem set_spec {T : Type} (s : HistoryState T) (v : T) :
    (hset s v).past = s.past ++ [s.present] ∧
    (hset s v).present = v ∧
    (hset s v).future = [] ∧
    (hset s v).past.length = s.past.length + 1 := by
  refine ⟨rfl, rfl, rfl, ?_⟩
  simp [hset, historyReducer]

/-- Claim C2: When `past` is non-empty, `undo` removes the last element of
`past` (`previous`), pushes the current `present` onto the front of
`future`, and sets `present` to `previous`; `past` shrinks by one and
`future` grows by one at its head. -/
theorem undo_spec {T : Type} (s : HistoryState T) (h : s.past ≠ []) :
    (hundo s).past = s.past.dropLast ∧
    (hundo s).present = s.past.getLast h ∧
    (hundo s).future = s.present :: s.future ∧
    (hundo s).past.length + 1 = s.past.length ∧
    (hundo s).future.length = s.future.length + 1 := by
  rw [hundo_of_past_ne_nil s h]
  refine ⟨rfl, rfl, rfl, ?_, rfl⟩
  have hp := List.length_pos.mpr h
  simp only [List.length_dropLast]
  omega

/-- Witness for C2 at a concrete state. -/
theorem undo_spec_witness :
    (⟨[1, 2], 3, [4]⟩ : HistoryState Nat).past ≠ [] ∧
    (hundo ⟨[1, 2], 3, [4]⟩).past = [1] ∧
    (hundo ⟨[1, 2], 3, [4]⟩).present = 2 ∧
    (hundo ⟨[1, 2], 3, [4]⟩).future = [3, 4] := by
  have h : (⟨[1, 2], 3, [4]⟩ : HistoryState Nat).past ≠ [] := by decide
  obtain ⟨h1, h2, h3, _, _⟩ := undo_spec (⟨[1, 2], 3, [4]⟩ : HistoryState Nat) h
  exact ⟨h, by rw [h1]; rfl, by rw [h2]; rfl, by rw [h3]⟩

/-- Claim C3: When `future` is non-empty, `redo` removes the first element of
`future` (`next`), pushes the current `present` onto the end of `past`, and
sets `present` to `next`; `future` shrinks by one from its head and `past`
grows by one at its end. -/
theorem redo_spec {T : Type} (s : HistoryState T) (next : T) (rest : List T)
    (h : s.future = next :: rest) :
    (hredo s).past = s.past ++ [s.present] ∧
    (hredo s).present = next ∧
    (hredo s).future = rest ∧
    (hredo s).past.length = s.past.length + 1 ∧
    (hredo s).future.length + 1 = s.future.length := by
  rw [hredo_of_future_cons s next rest h]
  refine ⟨rfl, rfl, rfl, by simp, by simp [h]⟩

/-- Witness for C3 at a concrete state. -/
theorem redo_spec_witness :
    (⟨[1], 2, [3, 4]⟩ : HistoryState Nat).future = 3 :: [4] ∧
    (hredo ⟨[1], 2, [3, 4]⟩).past = [1, 2] ∧
    (hredo ⟨[1], 2, [3, 4]⟩).present = 3 ∧
    (hredo ⟨[1], 2, [3, 4]⟩).future = [4] := by
  have h : (⟨[1], 2, [3, 4]⟩ : HistoryState Nat).future = 3 :: [4] := rfl
  obtain ⟨h1, h2, h3, _, _⟩ := redo_spec (⟨[1], 2, [3, 4]⟩ : HistoryState Nat) 3 [4] h
  exact ⟨h, by rw [h1]; rfl, by rw [h2], by rw [h3]⟩

/-- Claim C4: `undo` on an empty `past` and `redo` on an empty `future` are
benign no-ops returning the input state unchanged; repeated calls past
exhaustion never mutate `present`. -/
theorem boundary_noop_spec {T : Type} (s : HistoryState T) :
    (s.past = [] → hundo s = s ∧ hundo (hundo s) = s) ∧
    (s.future = [] → hredo s = s ∧ hredo (hredo s) = s) := by
  constructor
  · intro h
    have h1 := hundo_of_past_eq_nil s h
    exact ⟨h1, by rw [h1, h1]⟩
  · intro h
    have h1 := hredo_of_future_eq_nil s h
    exact ⟨h1, by rw [h1, h1]⟩

/-- Witness for C4 at a concrete state with empty past and future. -/
theorem boundary_noop_spec_witness :
    hundo (⟨[], 5, []⟩ : HistoryState Nat) = ⟨[], 5, []⟩ ∧
    hredo (⟨[], 5, []⟩ : HistoryState Nat) = ⟨[], 5, []⟩ :=
  ⟨((boundary_noop_spec ⟨[], 5, []⟩).1 rfl).1,
   ((boundary_noop_spec ⟨[], 5, []⟩).2 rfl).1⟩

section RoundTrip

variable {T : Type}

lemma hredo_hundo_of_past_ne_nil (s : HistoryState T) (h : s.past ≠ []) :
    hredo (hundo s) = s := by
  rw [hundo_of_past_ne_nil s h]
  rw [hredo_of_future_cons _ s.present s.future rfl]
  have hd : s.past.dropLast ++ [s.past.getLast h] = s.past :=
    List.dropLast_append_getLast h
  simp only [hd]

end RoundTrip

/-- Counterexample to C5 as stated: at the state with empty past,
present 0, and future [1], `undo` is a no-op but `redo` still fires, so
the present and the lengths of past and future all change across the
undo-then-redo round trip. -/
theorem undo_redo_roundtrip_cex :
    ¬ ((hredo (hundo (⟨[], 0, [1]⟩ : HistoryState Nat))).present =
          (⟨[], 0, [1]⟩ : HistoryState Nat).present ∧
       (hredo (hundo (⟨[], 0, [1]⟩ : HistoryState Nat))).past.length =
          (⟨[], 0, [1]⟩ : HistoryState Nat).past.length ∧
       (hredo (hundo (⟨[], 0, [1]⟩ : HistoryState Nat))).future.length =
          (⟨[], 0, [1]⟩ : HistoryState Nat).future.length) := by
  decide

/-- Claim C5 (amended): for every state whose `past` is non-empty (or whose
`future` is empty, so that both operations are no-ops), `undo()` followed
immediately by `redo()` yields the same `present` and the same lengths of
`past` and `future` as before the `undo()`. -/
theorem undo_redo_roundtrip {T : Type} (s : HistoryState T)
    (h : s.past ≠ [] ∨ s.future = []) :
    (hredo (hundo s)).present = s.present ∧
    (hredo (hundo s)).past.length = s.past.length ∧
    (hredo (hundo s)).future.length = s.future.length := by
  rcases eq_or_ne s.past [] with hp | hp
  · have hf : s.future = [] := by
      rcases h with h | h
      · exact absurd hp h
      · exact h
    rw [hundo_of_past_eq_nil s hp, hredo_of_future_eq_nil s hf]
    exact ⟨rfl, rfl, rfl⟩
  · rw [hredo_hundo_of_past_ne_nil s hp]
    exact ⟨rfl, rfl, rfl⟩

/-- Witness for the amended C5 at a concrete state with non-empty past. -/
theorem undo_redo_roundtrip_witness :
    (hredo (hundo (⟨[1], 2, [3]⟩ : HistoryState Nat))).present =
        (⟨[1], 2, [3]⟩ : HistoryState Nat).present ∧
    (hredo (hundo (⟨[1], 2, [3]⟩ : HistoryState Nat))).past.length =
        (⟨[1], 2, [3]⟩ : HistoryState Nat).past.length ∧
    (hredo (hundo (⟨[1], 2, [3]⟩ : HistoryState Nat))).future.length =
        (⟨[1], 2, [3]⟩ : HistoryState Nat).future.length :=
  undo_redo_roundtrip ⟨[1], 2, [3]⟩ (Or.inl (by decide))

lemma hundo_concat {T : Type} (p : List T) (x c : T) (f : List T) :
    hundo ⟨p ++ [x], c, f⟩ = ⟨p, x, c :: f⟩ := by
  simp [hundo, historyReducer, List.getLast?_concat, List.dropLast_concat]

/-- Folding a sequence of `set` dispatches over a state. -/
def applySets {T : Type} (s : HistoryState T) : List T → HistoryState T
  | [] => s
  | v :: vs => applySets (hset s v) vs

/-- Applying `undo` n times. -/
def applyUndos {T : Type} (s : HistoryState T) : Nat → HistoryState T
  | 0 => s
  | n + 1 => hundo (applyUndos s n)

lemma applyUndos_applySets {T : Type} :
    ∀ (vs : List T) (s : HistoryState T), vs ≠ [] →
      applyUndos (applySets s vs) vs.length =
        { past := s.past, present := s.present, future := vs } := by
  intro vs
  induction vs with
  | nil => intro s h; exact absurd rfl h
  | cons v vs ih =>
    intro s _
    rcases eq_or_ne vs [] with hvs | hvs
    · subst hvs
      simp only [applySets, applyUndos, List.length_cons, List.length_nil]
      rw [hset_def]
      exact hundo_concat s.past s.present v []
    · simp only [applySets, applyUndos, List.length_cons]
      rw [ih (hset s v) hvs, hset_def]
      exact hundo_concat s.past s.present v vs

/-- Claim C6: starting from the initial state with present v0 and empty
past and future, applying `set(v1), ..., set(vn)` and then n `undo` calls
yields a state with `present = v0` and empty `past`. -/
theorem sets_then_undos_spec {T : Type} (v0 : T) (vs : List T) :
    (applyUndos (applySets ⟨[], v0, []⟩ vs) vs.length).present = v0 ∧
    (applyUndos (applySets ⟨[], v0, []⟩ vs) vs.length).past = [] := by
  rcases eq_or_ne vs [] with h | h
  · subst h
    exact ⟨rfl, rfl⟩
  · rw [applyUndos_applySets vs ⟨[], v0, []⟩ h]
    exact ⟨rfl, rfl⟩

/-- One user-level operation of the demo: the four dispatch calls wired to
the input field and the three buttons. -/
inductive HistoryOp (T : Type) where
  | doSet (v : T)
  | doUndo
  | doRedo
  | doReset (v : T)
  deriving Repr, DecidableEq

/-- Applying one operation to a state through the reducer. -/
def applyOp {T : Type} (s : HistoryState T) : HistoryOp T → HistoryState T
  | .doSet v => hset s v
  | .doUndo => hundo s
  | .doRedo => hredo s
  | .doReset v => hreset s v

/-- Running a finite sequence of operations from a starting state; every
state reachable from the start by set/undo/redo/reset arises this way. -/
def runOps {T : Type} (s : HistoryState T) (ops : List (HistoryOp T)) :
    HistoryState T :=
  ops.foldl applyOp s

/-- Claim C7: at every state reachable by a finite sequence of
set/undo/redo/reset operations, the Undo button is enabled (canUndo) iff
`past` is non-empty and the Redo button is enabled (canRedo) iff `future`
is non-empty. -/
theorem can_undo_redo_spec {T : Type} (s0 : HistoryState T)
    (ops : List (HistoryOp T)) :
    (canUndo (runOps s0 ops) = true ↔ (runOps s0 ops).past ≠ []) ∧
    (canRedo (runOps s0 ops) = true ↔ (runOps s0 ops).future ≠ []) := by
  constructor
  · simp [canUndo, undoDisabled, List.length_eq_zero]
  · simp [canRedo, redoDisabled, List.length_eq_zero]

/-- Claim C8: `reset(newValue)` unconditionally yields
`{past: [], present: newValue, future: []}`, and the spec's concrete
scenario from `present = ""` proceeds through exactly the listed
intermediate states. -/
theorem reset_and_scenario_spec :
    (∀ (T : Type) (s : HistoryState T) (v : T),
        hreset s v = { past := [], present := v, future := [] }) ∧
    hset (⟨[], "", []⟩ : HistoryState String) "a" = ⟨[""], "a", []⟩ ∧
    hset (hset ⟨[], "", []⟩ "a") "b" = ⟨["", "a"], "b", []⟩ ∧
    hundo (hset (hset ⟨[], "", []⟩ "a") "b") = ⟨[""], "a", ["b"]⟩ ∧
    hundo (hundo (hset (hset ⟨[], "", []⟩ "a") "b")) = ⟨[], "", ["a", "b"]⟩ ∧
    hundo (hundo (hundo (hset (hset ⟨[], "", []⟩ "a") "b"))) =
      ⟨[], "", ["a", "b"]⟩ ∧
    hredo (hundo (hundo (hset (hset ⟨[], "", []⟩ "a") "b"))) =
      ⟨[""], "a", ["b"]⟩ ∧
    hreset (hredo (hundo (hundo (hset (hset ⟨[], "", []⟩ "a") "b")))) "z" =
      ⟨[], "z", []⟩ := by
  refine ⟨fun T s v => rfl, ?_, ?_, ?_, ?_, ?_, ?_, ?_⟩ <;> rfl

/-- Claim C9: `undo` and `redo` preserve the combined timeline
`past ++ [present] ++ future` element for element; they only move the
cursor, never add, drop, or reorder values. -/
theorem timeline_preserved_spec {T : Type} (s : HistoryState T) :
    (hundo s).past ++ [(hundo s).present] ++ (hundo s).future =
      s.past ++ [s.present] ++ s.future ∧
    (hredo s).past ++ [(hredo s).present] ++ (hredo s).future =
      s.past ++ [s.present] ++ s.future := by
  constructor
  · rcases eq_or_ne s.past [] with h | h
    · rw [hundo_of_past_eq_nil s h]
    · rw [hundo_of_past_ne_nil s h]
      show s.past.dropLast ++ [s.past.getLast h] ++ (s.present :: s.future) =
        s.past ++ [s.present] ++ s.future
      rw [List.dropLast_append_getLast h]
      simp
  · cases hf : s.future with
    | nil => rw [hredo_of_future_eq_nil s hf, hf]
    | cons next rest =>
      rw [hredo_of_future_cons s next rest hf]
      simp

/-- Claim C10: dispatching an action whose type string is none of "set",
"undo", "redo", "reset" returns the input state unchanged. -/
theorem unknown_action_noop_spec {T : Type} (s : HistoryState T)
    (a : JSAction T) (h1 : a.type ≠ "set") (h2 : a.type ≠ "undo")
    (h3 : a.type ≠ "redo") (h4 : a.type ≠ "reset") :
    historyReducer s a = s := by
  simp [historyReducer, h1, h2, h3, h4]

/-- Witness for C10 at a concrete state and action. -/
theorem unknown_action_noop_spec_witness :
    historyReducer (⟨[1], 2, [3]⟩ : HistoryState Nat) ⟨"bogus", 7⟩ =
      ⟨[1], 2, [3]⟩ :=
  unknown_action_noop_spec _ _ (by decide) (by decide) (by decide) (by decide)
